import Mathlib

/-! storelib: a key-value store over a MariaDB table.

Shallow embedding of `storelib/store.go`.

The Go code is a facade over `database/sql`.  It is embedded in two layers.

* The five operations (`Init`, `Set`, `Get`, `Delete`, `KeysWithSuffix`), `New` and
  `timeoutOrDefaultTimeout` are translated statement by statement.  They run against an
  arbitrary handle `DB σ`: a record of the three `database/sql` methods the code calls, as
  state-passing functions over a database state `σ`.
* `MariaDb name` is one such handle: a model of a server that answers the five statements
  the code sends for the table `name`, with the schema of the `CREATE TABLE` statement
  (`key varchar(255)` primary key, `value MEDIUMBLOB`).

Go values: a slice is a `List` (the nil slice is `[]`), an `error` is an `Option Error`
(`none` is nil), `time.Duration` is an `Int` of nanoseconds.
-/

set_option autoImplicit false
set_option linter.dupNamespace false
set_option maxRecDepth 100000

namespace storelib

/-! ## Values of the Go runtime and of `database/sql` -/

/-- Go `[]byte`; the nil slice is the empty list. -/
abbrev Bytes := List UInt8

/-- Go `time.Duration`: a count of nanoseconds. -/
abbrev Duration := Int

/-- Go `time.Second`. -/
def Second : Duration := 1000000000

/-- Line 17: `const defaultTimeout = 3 * time.Second`. -/
def defaultTimeout : Duration := 3 * Second

/-- The error values the code creates or receives. -/
inductive Error where
  /-- `errors.New(msg)` -/
  | errorsNew (msg : String)
  /-- `sql.ErrNoRows` -/
  | ErrNoRows
  /-- `context.DeadlineExceeded` -/
  | DeadlineExceeded
  /-- an error reported by the driver or the server: number and message -/
  | driver (number : Nat) (msg : String)
  deriving DecidableEq, Repr

/-- The `Error()` method: the message of an error. -/
def Error.Error : Error → String
  | .errorsNew msg => msg
  | .ErrNoRows => "sql: no rows in result set"
  | .DeadlineExceeded => "context deadline exceeded"
  | .driver _ msg => msg

/-- The context every operation builds:
`context.WithTimeout(context.Background(), m.timeout)`. -/
structure Context where
  timeout : Duration
  deriving DecidableEq, Repr

/-- Go `context.WithTimeout(context.Background(), d)`. -/
def WithTimeout (d : Duration) : Context := ⟨d⟩

/-- A positional argument of a statement: the code passes strings and byte slices. -/
inductive Arg where
  | str (s : String)
  | bytes (b : Bytes)
  deriving DecidableEq, Repr

/-- Go `sql.Result`, as far as the code reads it: the outcome of `RowsAffected()`. -/
structure Result where
  RowsAffected : Except Error Int

/-- Go `*sql.Row` for a one-column query scanned into a `[]byte`: what `Err()` returns
and what `Scan(&result)` yields. -/
structure Row where
  Err : Option Error
  Scan : Except Error Bytes

/-- One result set of a query response as `*sql.Rows` delivers it: each row is what
`Scan(&key)` yields for it (the key, or a scan error); `broken` is the error, if any, that
ends the iteration after these rows in place of the regular end of the set. -/
structure ResultSet where
  rows : List (Except Error String)
  broken : Option Error

/-- Go `*sql.Rows`: a cursor over a query response.
`current` is the row the last `Next` made available to `Scan`; `pending` are the rows of
the current result set not yet visited; `broken` is the error that ends the current set;
`later` are the result sets after the current one; `lasterr` is what `Err()` would report. -/
structure Rows where
  current : Option (Except Error String)
  pending : List (Except Error String)
  broken : Option Error
  later : List ResultSet
  closed : Bool
  lasterr : Option Error

/-- The cursor `QueryContext` hands out for a response: positioned before the first row of
the first result set. -/
def Rows.open (first : ResultSet) (later : List ResultSet) : Rows :=
  { current := none, pending := first.rows, broken := first.broken, later := later,
    closed := false, lasterr := none }

/-- Go `rows.Next()`: false on closed rows; true with the next row of the current result
set when there is one; at the end of the set false, closing the rows when the iteration
broke with an error or no further result set exists. -/
def Rows.Next (r : Rows) : Bool × Rows :=
  if r.closed then (false, r)
  else
    match r.pending with
    | x :: xs => (true, { r with current := some x, pending := xs })
    | [] =>
      match r.broken with
      | some e => (false, { r with current := none, closed := true, lasterr := some e })
      | none => (false, { r with current := none, closed := r.later.isEmpty })

/-- Go `rows.Scan(&key)` with one `string` destination. -/
def Rows.Scan (r : Rows) : Except Error String :=
  if r.closed then .error (.errorsNew "sql: Rows are closed")
  else
    match r.current with
    | none => .error (.errorsNew "sql: Scan called without calling Next")
    | some x => x

/-- Go `rows.NextResultSet()`: false on closed rows; otherwise moves to the next result
set when there is one, and closes the rows when there is none. -/
def Rows.NextResultSet (r : Rows) : Bool × Rows :=
  if r.closed then (false, r)
  else
    match r.later with
    | [] => (false, { r with current := none, closed := true })
    | s :: ss =>
      (true, { r with current := none, pending := s.rows, broken := s.broken, later := ss })

/-- Go `rows.Err()`. -/
def Rows.Err (r : Rows) : Option Error := r.lasterr

/-- Go `rows.Close()`. -/
def Rows.Close (r : Rows) : Rows := { r with closed := true }

/-- A bound on the number of `Next` and `NextResultSet` calls that can still succeed. -/
def Rows.size (r : Rows) : Nat :=
  r.pending.length + (r.later.map fun s => s.rows.length + 1).sum

/-- Go `*sql.DB`, the three methods the code calls, over a database state `σ`. -/
structure DB (σ : Type) where
  ExecContext : Context → String → List Arg → σ → Except Error Result × σ
  QueryRowContext : Context → String → List Arg → σ → Row × σ
  QueryContext : Context → String → List Arg → σ → Except Error Rows × σ

/-! ## store.go -/

/-- Lines 11-15: `type Configuration struct`. -/
structure Configuration (σ : Type) where
  Db : DB σ
  Timeout : Duration
  Table : String

/-- Lines 35-39: `type MariaDbStore struct`. -/
structure MariaDbStore (σ : Type) where
  table : String
  db : DB σ
  timeout : Duration

/-- Lines 27-33. -/
def timeoutOrDefaultTimeout (to_ : Duration) : Duration :=
  if to_ = 0 then defaultTimeout else to_

/-- Lines 19-25. -/
def New {σ : Type} (configuration : Configuration σ) : MariaDbStore σ :=
  { db := configuration.Db
    table := configuration.Table
    timeout := timeoutOrDefaultTimeout configuration.Timeout }

/-- The statement text of `Init` (line 44). -/
def createTableText (table : String) : String :=
  "CREATE TABLE IF NOT EXISTS `" ++ table ++
    "` (`key` varchar(255), `value` MEDIUMBLOB, CONSTRAINT PK PRIMARY KEY (`key`)) ;"

/-- The statement text of `Set` (line 51). -/
def upsertText (table : String) : String :=
  "INSERT INTO `" ++ table ++
    "` (`key`, `value`) VALUES (?,?) ON DUPLICATE KEY UPDATE `value`=?"

/-- The statement text of `Get` (line 59). -/
def selectValueText (table : String) : String :=
  "SELECT `value` FROM `" ++ table ++ "` WHERE `key` = ?;"

/-- The statement text of `Delete` (line 76). -/
def deleteText (table : String) : String :=
  "DELETE FROM `" ++ table ++ "` WHERE `key` = ?"

/-- The statement text of `KeysWithSuffix` (line 94). -/
def selectKeysText (table : String) : String :=
  "SELECT `key` FROM `" ++ table ++ "` WHERE `key` LIKE ?;"

/-- Lines 41-46. -/
def Init {σ : Type} (m : MariaDbStore σ) (s : σ) : Option Error × σ :=
  let ctx := WithTimeout m.timeout
  match m.db.ExecContext ctx (createTableText m.table) [] s with
  | (.error err, s) => (some err, s)
  | (.ok _, s) => (none, s)

/-- Lines 48-53. -/
def Set {σ : Type} (m : MariaDbStore σ) (key : String) (value : Bytes) (s : σ) :
    Option Error × σ :=
  let ctx := WithTimeout m.timeout
  match m.db.ExecContext ctx (upsertText m.table) [.str key, .bytes value, .bytes value] s with
  | (.error err, s) => (some err, s)
  | (.ok _, s) => (none, s)

/-- Lines 55-70. -/
def Get {σ : Type} (m : MariaDbStore σ) (key : String) (s : σ) :
    (Bytes × Option Error) × σ :=
  let ctx := WithTimeout m.timeout
  let (row, s) := m.db.QueryRowContext ctx (selectValueText m.table) [.str key] s
  match row.Err with
  | some err => (([], some err), s)
  | none =>
    match row.Scan with
    | .error err => (([], some err), s)
    | .ok result => ((result, none), s)

/-- Lines 72-88. -/
def Delete {σ : Type} (m : MariaDbStore σ) (key : String) (s : σ) : Option Error × σ :=
  let ctx := WithTimeout m.timeout
  match m.db.ExecContext ctx (deleteText m.table) [.str key] s with
  | (.error err, s) => (some err, s)
  | (.ok result, s) =>
    match result.RowsAffected with
    | .error err => (some err, s)
    | .ok rows =>
      if rows = 0 then (some (.errorsNew "unknown key"), s)
      else (none, s)

/-- What running a loop of `KeysWithSuffix` for a bounded number of steps gives. -/
inductive Loop (α : Type) where
  /-- the loop ran to its end -/
  | done (a : α)
  /-- the function returned from inside the loop: `return nil, err` -/
  | returned (err : Error)
  /-- the step bound was used up -/
  | exhausted
  deriving Repr

/-- Lines 102-108, the inner loop `for rows.Next() { ... }`, at most `fuel` rounds. -/
def scanKeys : Nat → Rows → List String → Loop (Rows × List String)
  | 0, _, _ => .exhausted
  | fuel + 1, rows, result =>
    match rows.Next with
    | (false, rows) => .done (rows, result)
    | (true, rows) =>
      match rows.Scan with
      | .error err => .returned err
      | .ok key => scanKeys fuel rows (result ++ [key])

/-- Lines 101-109, the outer loop
`for cont := true; cont; cont = rows.NextResultSet() { ... }`, entered with `cont` true,
at most `fuel` rounds. -/
def drainResultSets : Nat → Rows → List String → Loop (Rows × List String)
  | 0, _, _ => .exhausted
  | fuel + 1, rows, result =>
    match scanKeys (rows.size + 1) rows result with
    | .exhausted => .exhausted
    | .returned err => .returned err
    | .done (rows, result) =>
      match rows.NextResultSet with
      | (false, rows) => .done (rows, result)
      | (true, rows) => drainResultSets fuel rows result

/-- Lines 90-112.  The deferred `rows.Close()` of line 98 acts on the cursor, which is
dropped on return, and its error is discarded by the code.  The result is `none` only if a
loop used up its step bound, which `Rows.size` excludes (`KeysWithSuffix_returns`). -/
def KeysWithSuffix {σ : Type} (m : MariaDbStore σ) (suffix : String) (s : σ) :
    Option (List String × Option Error) × σ :=
  let ctx := WithTimeout m.timeout
  match m.db.QueryContext ctx (selectKeysText m.table) [.str ("%" ++ suffix)] s with
  | (.error err, s) => (some ([], some err), s)
  | (.ok rows, s) =>
    match drainResultSets (rows.size + 1) rows [] with
    | .exhausted => (none, s)
    | .returned err => (some ([], some err), s)
    | .done (_, result) => (some (result, none), s)

/-! ## The database server

A model of the MariaDB server behind the handle, restricted to the table the store uses.
It answers the five statements of `store.go`, recognised by their exact text, for the
schema of the `CREATE TABLE` statement of line 44.  Assumptions of the model: the server
answers at once, so a statement fails on the deadline exactly when the context is done on
arrival (a timeout that is not positive); strict SQL mode (a value too long for its column
is rejected); keys compare character by character (binary collation); rows are listed in
insertion order. -/

/-- The rows of the table: `key` and `value` columns. -/
abbrev Table := List (String × Bytes)

/-- The server state: `none` while the table does not exist. -/
abbrev Server := Option Table

/-- Line 44, `varchar(255)`: the longest key the `key` column holds, in characters. -/
def maxKeyLength : Nat := 255

/-- Line 44, `MEDIUMBLOB`: the longest value the `value` column holds, in bytes. -/
def maxValueLength : Nat := 16777215

/-- MariaDB `subject LIKE pattern` without an `ESCAPE` clause: `%` matches any run of
characters, `_` matches one character, the backslash (the default escape character) makes
the character after it literal and stands for itself at the end of the pattern; any other
character matches itself. -/
def like : List Char → List Char → Bool
  | [], subject => subject.isEmpty
  | c :: pattern, subject =>
    if c = '%' then subject.tails.any (like pattern)
    else if c = '_' then
      match subject with
      | [] => false
      | _ :: rest => like pattern rest
    else if c = '\\' then
      match subject with
      | [] => false
      | d :: rest =>
        match pattern with
        | [] => d = '\\' && rest.isEmpty
        | e :: pattern => d = e && like pattern rest
    else
      match subject with
      | [] => false
      | d :: rest => d = c && like pattern rest

/-- The value stored under `key`, if a row has that key: `WHERE key = ?`. -/
def lookup (key : String) (t : Table) : Option Bytes :=
  (t.find? fun r => r.1 = key).map Prod.snd

/-- Server error 1146. -/
def noSuchTable : Error := .driver 1146 "Table doesn't exist"

/-- Server error 1406. -/
def dataTooLong : Error := .driver 1406 "Data too long for column"

/-- Server error 1064, also used for a statement the model does not cover. -/
def notUnderstood : Error := .driver 1064 "You have an error in your SQL syntax"

/-- `CREATE TABLE IF NOT EXISTS`: creates the empty table unless the table exists. -/
def execCreate : Server → Except Error Result × Server
  | none => (.ok ⟨.ok 0⟩, some [])
  | some t => (.ok ⟨.ok 0⟩, some t)

/-- `INSERT INTO t (key, value) VALUES (key, v1) ON DUPLICATE KEY UPDATE value = v2`.
Rows affected: 1 for an insert, 2 for an update, 0 for an update that changes nothing. -/
def execUpsert (key : String) (v1 v2 : Bytes) : Server → Except Error Result × Server
  | none => (.error noSuchTable, none)
  | some t =>
    if maxKeyLength < key.length ∨ maxValueLength < v1.length then (.error dataTooLong, some t)
    else
      match lookup key t with
      | none => (.ok ⟨.ok 1⟩, some (t ++ [(key, v1)]))
      | some old =>
        if maxValueLength < v2.length then (.error dataTooLong, some t)
        else
          (.ok ⟨.ok (if old = v2 then 0 else 2)⟩,
            some (t.map fun r => if r.1 = key then (r.1, v2) else r))

/-- `DELETE FROM t WHERE key = ?`: rows affected is the number of rows removed. -/
def execDelete (key : String) : Server → Except Error Result × Server
  | none => (.error noSuchTable, none)
  | some t =>
    (.ok ⟨.ok ((t.filter fun r => r.1 = key).length : Nat)⟩,
      some (t.filter fun r => ¬ r.1 = key))

/-- `SELECT value FROM t WHERE key = ?` through `QueryRowContext`: `Scan` yields the
value of the first row, or `sql.ErrNoRows` when no row matches. -/
def queryValue (key : String) : Server → Row
  | none => { Err := some noSuchTable, Scan := .error noSuchTable }
  | some t =>
    { Err := none
      Scan := match lookup key t with
        | none => .error .ErrNoRows
        | some v => .ok v }

/-- `SELECT key FROM t WHERE key LIKE ?`: one result set with the matching keys. -/
def queryKeys (pattern : String) : Server → Except Error Rows
  | none => .error noSuchTable
  | some t =>
    .ok (Rows.open
      ⟨(t.filter fun r => like pattern.data r.1.data).map fun r => .ok r.1, none⟩ [])

/-- The handle of a store whose table is `name`, connected to the modelled server. -/
def MariaDb (name : String) : DB Server where
  ExecContext ctx query args s :=
    if ctx.timeout ≤ 0 then (.error .DeadlineExceeded, s)
    else if query = createTableText name then
      match args with
      | [] => execCreate s
      | _ => (.error notUnderstood, s)
    else if query = upsertText name then
      match args with
      | [.str key, .bytes v1, .bytes v2] => execUpsert key v1 v2 s
      | _ => (.error notUnderstood, s)
    else if query = deleteText name then
      match args with
      | [.str key] => execDelete key s
      | _ => (.error notUnderstood, s)
    else (.error notUnderstood, s)
  QueryRowContext ctx query args s :=
    if ctx.timeout ≤ 0 then
      ({ Err := some .DeadlineExceeded, Scan := .error .DeadlineExceeded }, s)
    else if query = selectValueText name then
      match args with
      | [.str key] => (queryValue key s, s)
      | _ => ({ Err := some notUnderstood, Scan := .error notUnderstood }, s)
    else ({ Err := some notUnderstood, Scan := .error notUnderstood }, s)
  QueryContext ctx query args s :=
    if ctx.timeout ≤ 0 then (.error .DeadlineExceeded, s)
    else if query = selectKeysText name then
      match args with
      | [.str pattern] => (queryKeys pattern s, s)
      | _ => (.error notUnderstood, s)
    else (.error notUnderstood, s)

/-- The configuration of a store on table `name` connected to the modelled server. -/
def onMariaDb (name : String) (timeout : Duration) : Configuration Server :=
  { Db := MariaDb name, Timeout := timeout, Table := name }



/-! ## Auxiliary definitions for the statements -/

/-- The cursor `Next` leaves behind when it reports the end of the current result set. -/
def Rows.endOfSet (r : Rows) : Rows :=
  match r.broken with
  | some e => { r with current := none, pending := [], closed := true, lasterr := some e }
  | none => { r with current := none, pending := [], closed := r.later.isEmpty }

/-- A response whose rows all scan: its result sets given by their keys. -/
def keyRows (ks : List String) : ResultSet := ⟨ks.map Except.ok, none⟩

/-- What a successful upsert leaves in the table. -/
def upserted (key : String) (v : Bytes) (t : Table) : Table :=
  match lookup key t with
  | none => t ++ [(key, v)]
  | some _ => t.map fun r => if r.1 = key then (r.1, v) else r

/-- A handle that answers every query with the given response and every other call with
success; it stands for a driver whose response the claims fix. -/
def respondingWith (first : ResultSet) (later : List ResultSet) : DB Unit where
  ExecContext _ _ _ s := (.ok ⟨.ok 1⟩, s)
  QueryRowContext _ _ _ s := ({ Err := none, Scan := .ok [] }, s)
  QueryContext _ _ _ s := (.ok (Rows.open first later), s)

/-- A key of 256 characters, one more than the `key` column holds. -/
def longKey : String := String.mk (List.replicate 256 'k')

/-! ## Lemmas -/

theorem upsertText_ne_createTableText (n : String) : upsertText n ≠ createTableText n := by
  intro h
  have := congrArg (fun s => s.data.head?) h
  simp [upsertText, createTableText] at this

theorem deleteText_ne_createTableText (n : String) : deleteText n ≠ createTableText n := by
  intro h
  have := congrArg (fun s => s.data.head?) h
  simp [deleteText, createTableText] at this

theorem deleteText_ne_upsertText (n : String) : deleteText n ≠ upsertText n := by
  intro h
  have := congrArg (fun s => s.data.head?) h
  simp [deleteText, upsertText] at this

theorem timeout_pos (timeout : Duration) (h : 0 ≤ timeout) :
    ¬ (WithTimeout (timeoutOrDefaultTimeout timeout)).timeout ≤ 0 := by
  show ¬ (if timeout = 0 then (3 * 1000000000 : Int) else timeout) ≤ 0
  split_ifs with h0
  · decide
  · exact not_le.mpr (lt_of_le_of_ne h (Ne.symm h0))

/-! ### The loops of `KeysWithSuffix` -/

theorem scanKeys_ok (ks : List String) :
    ∀ (fuel : Nat) (r : Rows) (result : List String), r.closed = false →
      r.pending = ks.map Except.ok → ks.length < fuel →
      scanKeys fuel r result = .done (r.endOfSet, result ++ ks) := by
  induction ks with
  | nil =>
    intro fuel r result hc hp hf
    obtain ⟨cur, pending, broken, later, closed, lasterr⟩ := r
    simp only [List.map_nil] at hp hc
    subst hp hc
    cases fuel with
    | zero => simp at hf
    | succ fuel =>
      cases broken <;> simp [scanKeys, Rows.Next, Rows.endOfSet]
  | cons k ks ih =>
    intro fuel r result hc hp hf
    obtain ⟨cur, pending, broken, later, closed, lasterr⟩ := r
    simp only [List.map_cons] at hp hc
    subst hp hc
    cases fuel with
    | zero => simp at hf
    | succ fuel =>
      simp only [List.length_cons, Nat.add_lt_add_iff_right] at hf
      simp only [scanKeys, Rows.Next, Rows.Scan]
      simp only [Bool.false_eq_true, if_false]
      rw [ih fuel _ _ rfl rfl hf]
      simp [Rows.endOfSet]

theorem scanKeys_not_exhausted :
    ∀ (fuel : Nat) (r : Rows) (result : List String), r.pending.length < fuel →
      scanKeys fuel r result ≠ .exhausted := by
  intro fuel
  induction fuel with
  | zero => intro r result hf; simp at hf
  | succ fuel ih =>
    intro r result hf
    obtain ⟨cur, pending, broken, later, closed, lasterr⟩ := r
    cases closed with
    | true => simp [scanKeys, Rows.Next]
    | false =>
      cases pending with
      | nil => cases broken <;> simp [scanKeys, Rows.Next]
      | cons x xs =>
        simp only [List.length_cons, Nat.add_lt_add_iff_right] at hf
        cases x with
        | error e => simp [scanKeys, Rows.Next, Rows.Scan]
        | ok k =>
          simp only [scanKeys, Rows.Next, Rows.Scan, Bool.false_eq_true, if_false]
          exact ih _ _ hf

theorem scanKeys_later :
    ∀ (fuel : Nat) (r r' : Rows) (result result' : List String),
      scanKeys fuel r result = .done (r', result') → r'.later = r.later := by
  intro fuel
  induction fuel with
  | zero => intro r r' result result' h; simp [scanKeys] at h
  | succ fuel ih =>
    intro r r' result result' h
    obtain ⟨cur, pending, broken, later, closed, lasterr⟩ := r
    cases closed with
    | true =>
      simp [scanKeys, Rows.Next] at h
      rw [← h.1]
    | false =>
      cases pending with
      | nil =>
        cases broken <;> simp [scanKeys, Rows.Next] at h <;> rw [← h.1]
      | cons x xs =>
        cases x with
        | error e => simp [scanKeys, Rows.Next, Rows.Scan] at h
        | ok k =>
          simp only [scanKeys, Rows.Next, Rows.Scan, Bool.false_eq_true, if_false] at h
          have h2 := ih _ _ _ _ h
          simpa using h2

theorem drainResultSets_not_exhausted :
    ∀ (fuel : Nat) (r : Rows) (result : List String), r.later.length < fuel →
      drainResultSets fuel r result ≠ .exhausted := by
  intro fuel
  induction fuel with
  | zero => intro r result hf; simp at hf
  | succ fuel ih =>
    intro r result hf
    have hs := scanKeys_not_exhausted (r.size + 1) r result
      (by unfold Rows.size; omega)
    have hl := scanKeys_later (r.size + 1) r
    unfold drainResultSets
    cases hsk : scanKeys (r.size + 1) r result with
    | exhausted => exact absurd hsk hs
    | returned err => simp
    | done p =>
      obtain ⟨r', result'⟩ := p
      have hl' := hl r' result result' hsk
      obtain ⟨cur, pending, broken, later, closed, lasterr⟩ := r'
      simp only at hl'
      cases closed with
      | true => simp [Rows.NextResultSet]
      | false =>
        cases later with
        | nil => simp [Rows.NextResultSet]
        | cons s ss =>
          simp only [Rows.NextResultSet, Bool.false_eq_true, if_false]
          apply ih
          rw [← hl'] at hf
          simpa using hf

theorem later_length_le (l : List ResultSet) :
    l.length ≤ (l.map fun s => s.rows.length + 1).sum := by
  induction l with
  | nil => simp
  | cons a l ih => simp only [List.length_cons, List.map_cons, List.sum_cons]; omega

/-- `KeysWithSuffix` always returns: the step bounds of its loops are never used up,
whatever the handle answers. -/
theorem KeysWithSuffix_returns {σ : Type} (m : MariaDbStore σ) (suffix : String) (s : σ) :
    ∃ result err, (KeysWithSuffix m suffix s).1 = some (result, err) := by
  unfold KeysWithSuffix
  simp only
  cases hq : m.db.QueryContext (WithTimeout m.timeout) (selectKeysText m.table)
      [.str ("%" ++ suffix)] s with
  | mk out s' =>
    cases out with
    | error err => exact ⟨[], some err, rfl⟩
    | ok rows =>
      simp only
      have hd := drainResultSets_not_exhausted (rows.size + 1) rows []
        (by unfold Rows.size
            have := later_length_le rows.later
            omega)
      cases hdr : drainResultSets (rows.size + 1) rows [] with
      | exhausted => exact absurd hdr hd
      | returned err => exact ⟨[], some err, rfl⟩
      | done p => exact ⟨p.2, none, rfl⟩

theorem drainResultSets_ok (later : List (List String)) :
    ∀ (fuel : Nat) (first : List String) (r : Rows) (result : List String),
      r.closed = false → r.broken = none → r.pending = first.map Except.ok →
      r.later = later.map keyRows → later.length < fuel →
      drainResultSets fuel r result =
        .done (⟨none, [], none, [], true, r.lasterr⟩, result ++ first ++ later.flatten) := by
  induction later with
  | nil =>
    intro fuel first r result hc hb hp hl hf
    cases fuel with
    | zero => simp at hf
    | succ fuel =>
      unfold drainResultSets
      rw [scanKeys_ok first _ r result hc hp (by unfold Rows.size; rw [hp]; simp; omega)]
      obtain ⟨cur, pending, broken, later, closed, lasterr⟩ := r
      simp only [List.map_nil] at hc hb hp hl
      subst hc hb hl
      simp [Rows.endOfSet, Rows.NextResultSet]
  | cons ks later ih =>
    intro fuel first r result hc hb hp hl hf
    cases fuel with
    | zero => simp at hf
    | succ fuel =>
      simp only [List.length_cons, Nat.add_lt_add_iff_right] at hf
      unfold drainResultSets
      rw [scanKeys_ok first _ r result hc hp (by unfold Rows.size; rw [hp]; simp; omega)]
      obtain ⟨cur, pending, broken, later', closed, lasterr⟩ := r
      simp only [List.map_cons] at hc hb hp hl
      subst hc hb hl
      simp only [Rows.endOfSet, Rows.NextResultSet, List.isEmpty_cons, Bool.false_eq_true,
        if_false]
      rw [ih fuel ks _ (result ++ first) rfl rfl rfl rfl hf]
      simp [keyRows]

/-! ### The operations on the modelled server -/

theorem Init_onMariaDb (name : String) (timeout : Duration) (h : 0 ≤ timeout) (s : Server) :
    Init (New (onMariaDb name timeout)) s = (none, some (s.getD [])) := by
  have ht := timeout_pos timeout h
  cases s <;> simp [Init, New, onMariaDb, MariaDb, ht, execCreate]

theorem Set_onMariaDb (name : String) (timeout : Duration) (h : 0 ≤ timeout)
    (key : String) (value : Bytes) (s : Server) :
    Set (New (onMariaDb name timeout)) key value s =
      match execUpsert key value value s with
      | (.error err, s) => (some err, s)
      | (.ok _, s) => (none, s) := by
  have ht := timeout_pos timeout h
  simp only [Set, New, onMariaDb, MariaDb, ht, if_false, upsertText_ne_createTableText]
  cases execUpsert key value value s with
  | mk out s' => cases out <;> rfl

theorem Get_onMariaDb (name : String) (timeout : Duration) (h : 0 ≤ timeout)
    (key : String) (t : Table) :
    Get (New (onMariaDb name timeout)) key (some t) =
      (match lookup key t with
        | none => ([], some .ErrNoRows)
        | some v => (v, none), some t) := by
  have ht := timeout_pos timeout h
  cases hl : lookup key t <;>
    simp [Get, New, onMariaDb, MariaDb, ht, queryValue, hl]

theorem Delete_onMariaDb (name : String) (timeout : Duration) (h : 0 ≤ timeout)
    (key : String) (t : Table) :
    Delete (New (onMariaDb name timeout)) key (some t) =
      (if (t.filter fun r => r.1 = key).length = 0 then some (.errorsNew "unknown key")
        else none, some (t.filter fun r => ¬ r.1 = key)) := by
  have ht := timeout_pos timeout h
  by_cases hz : (t.filter fun r => r.1 = key).length = 0
  · have hz' : (((t.filter fun r => r.1 = key).length : Nat) : Int) = 0 := by exact_mod_cast hz
    simp only [Delete, New, onMariaDb, MariaDb, ht, if_false, if_true,
      deleteText_ne_createTableText, deleteText_ne_upsertText, execDelete, hz']
    simp only [hz, if_true]
  · have hz' : ¬ (((t.filter fun r => r.1 = key).length : Nat) : Int) = 0 := by
      exact_mod_cast hz
    simp only [Delete, New, onMariaDb, MariaDb, ht, if_false, if_true,
      deleteText_ne_createTableText, deleteText_ne_upsertText, execDelete, hz, hz']

theorem KeysWithSuffix_onMariaDb (name : String) (timeout : Duration) (h : 0 ≤ timeout)
    (suffix : String) (t : Table) :
    KeysWithSuffix (New (onMariaDb name timeout)) suffix (some t) =
      (some (((t.filter fun r => like ("%" ++ suffix).data r.1.data).map Prod.fst), none),
        some t) := by
  have ht := timeout_pos timeout h
  simp only [KeysWithSuffix, New, onMariaDb, MariaDb, ht, if_false, if_true, queryKeys]
  rw [drainResultSets_ok [] _
    ((t.filter fun r => like ("%" ++ suffix).data r.1.data).map Prod.fst) _ [] rfl rfl
    (by simp [Rows.open]) rfl (by simp)]
  simp

/-! ### Facts about the table -/

theorem lookup_append_absent (key : String) (v : Bytes) (t : Table)
    (h : lookup key t = none) : lookup key (t ++ [(key, v)]) = some v := by
  unfold lookup at h ⊢
  rw [Option.map_eq_none'] at h
  simp [List.find?_append, h]

theorem lookup_map_present (key : String) (v : Bytes) (t : Table) (old : Bytes)
    (h : lookup key t = some old) :
    lookup key (t.map fun r => if r.1 = key then (r.1, v) else r) = some v := by
  unfold lookup at h ⊢
  induction t with
  | nil => simp at h
  | cons r t ih =>
    by_cases hr : r.1 = key
    · simp [List.find?_cons, hr]
    · simp only [List.find?_cons, hr, decide_False] at h
      simp only [List.map_cons, hr, if_false, List.find?_cons, decide_False]
      exact ih h

theorem lookup_filter_ne (key : String) (t : Table) :
    lookup key (t.filter fun r => ¬ r.1 = key) = none := by
  unfold lookup
  rw [Option.map_eq_none', List.find?_eq_none]
  intro r hr
  simpa using (List.mem_filter.mp hr).2

theorem lookup_absent (key : String) (t : Table) (h : ∀ r ∈ t, r.1 ≠ key) :
    lookup key t = none := by
  unfold lookup
  rw [Option.map_eq_none', List.find?_eq_none]
  intro r hr
  simpa using h r hr

theorem filter_key_pos (key : String) (v : Bytes) (t : Table) (h : lookup key t = some v) :
    (t.filter fun r => r.1 = key).length ≠ 0 := by
  unfold lookup at h
  cases hf : t.find? (fun r => r.1 = key) with
  | none => simp [hf] at h
  | some r =>
    have hm := List.mem_of_find?_eq_some hf
    have hp := List.find?_some hf
    have : r ∈ t.filter fun r => r.1 = key := List.mem_filter.mpr ⟨hm, hp⟩
    intro h0
    rw [List.length_eq_zero] at h0
    rw [h0] at this
    simp at this

theorem lookup_upserted (key : String) (v : Bytes) (t : Table) :
    lookup key (upserted key v t) = some v := by
  unfold upserted
  cases h : lookup key t with
  | none => exact lookup_append_absent key v t h
  | some old => exact lookup_map_present key v t old h

theorem lookup_none_not_mem (key : String) (t : Table) (h : lookup key t = none) :
    key ∉ t.map Prod.fst := by
  unfold lookup at h
  rw [Option.map_eq_none', List.find?_eq_none] at h
  intro hm
  obtain ⟨r, hr, rfl⟩ := List.mem_map.mp hm
  simpa using h r hr

/-- The primary key: `Set` keeps the keys of the table unique. -/
theorem upserted_keys_nodup (key : String) (v : Bytes) (t : Table)
    (h : (t.map Prod.fst).Nodup) : ((upserted key v t).map Prod.fst).Nodup := by
  unfold upserted
  cases hl : lookup key t with
  | none =>
    simp only [List.map_append, List.map_cons, List.map_nil]
    rw [List.nodup_append]
    refine ⟨h, List.nodup_singleton _, ?_⟩
    intro a ha hb
    rw [List.mem_singleton] at hb
    subst hb
    exact lookup_none_not_mem a t hl ha
  | some old =>
    simp only [List.map_map]
    have hf : (Prod.fst ∘ fun r : String × Bytes => if r.1 = key then (r.1, v) else r)
        = Prod.fst := by
      funext r
      by_cases hr : r.1 = key <;> simp [hr]
    rw [hf]
    exact h

/-- The primary key: `Delete` keeps the keys of the table unique. -/
theorem deleted_keys_nodup (key : String) (t : Table) (h : (t.map Prod.fst).Nodup) :
    ((t.filter fun r => ¬ r.1 = key).map Prod.fst).Nodup :=
  h.sublist (List.Sublist.map _ (List.filter_sublist _))

theorem Set_fits (name : String) (timeout : Duration) (h : 0 ≤ timeout)
    (key : String) (value : Bytes) (t : Table)
    (hk : key.length ≤ maxKeyLength) (hv : value.length ≤ maxValueLength) :
    Set (New (onMariaDb name timeout)) key value (some t) =
      (none, some (upserted key value t)) := by
  rw [Set_onMariaDb name timeout h]
  have h1 : ¬ maxKeyLength < key.length := by omega
  have h2 : ¬ maxValueLength < value.length := by omega
  unfold execUpsert upserted
  cases hl : lookup key t <;> simp [h1, h2, hl]

/-- A key or a value longer than its column is rejected by `Set`, which returns the
server's error and leaves the table as it was. -/
theorem Set_too_long (name : String) (timeout : Duration) (h : 0 ≤ timeout)
    (key : String) (value : Bytes) (t : Table)
    (hlong : maxKeyLength < key.length ∨ maxValueLength < value.length) :
    Set (New (onMariaDb name timeout)) key value (some t) = (some dataTooLong, some t) := by
  rw [Set_onMariaDb name timeout h]
  simp only [execUpsert, hlong, if_true]

/-! ### Facts about `LIKE` -/

theorem like_percent (p s : List Char) : like ('%' :: p) s = s.tails.any (like p) := by
  cases s <;> cases p <;> simp [like]

theorem like_ordinary (c d : Char) (p rest : List Char)
    (c1 : ¬ c = '%') (c2 : ¬ c = '_') (c3 : ¬ c = '\\') :
    like (c :: p) (d :: rest) = (decide (d = c) && like p rest) := by
  cases p <;> simp [like, c1, c2, c3]

theorem like_literal (p : List Char) :
    '%' ∉ p → '_' ∉ p → '\\' ∉ p → ∀ s : List Char, like p s = true ↔ s = p := by
  induction p with
  | nil => intro _ _ _ s; cases s <;> simp [like]
  | cons c p ih =>
    intro h1 h2 h3 s
    have c1 : ¬ c = '%' := fun hc => h1 (by simp [hc])
    have c2 : ¬ c = '_' := fun hc => h2 (by simp [hc])
    have c3 : ¬ c = '\\' := fun hc => h3 (by simp [hc])
    have ih' := ih (fun hm => h1 (List.mem_cons_of_mem _ hm))
      (fun hm => h2 (List.mem_cons_of_mem _ hm)) (fun hm => h3 (List.mem_cons_of_mem _ hm))
    cases s with
    | nil => simp [like, c1, c2, c3]
    | cons d rest => simp [like_ordinary c d p rest c1 c2 c3, ih' rest]

theorem like_percent_literal (p s : List Char)
    (h1 : '%' ∉ p) (h2 : '_' ∉ p) (h3 : '\\' ∉ p) :
    like ('%' :: p) s = true ↔ p <:+ s := by
  simp only [like_percent, List.any_eq_true, List.mem_tails]
  constructor
  · rintro ⟨x, hx, hl⟩
    rw [(like_literal p h1 h2 h3 x).mp hl] at hx
    exact hx
  · intro hs
    exact ⟨p, hs, (like_literal p h1 h2 h3 p).mpr rfl⟩

theorem percent_data (suffix : String) : ("%" ++ suffix).data = '%' :: suffix.data := by
  simp [String.data_append]

theorem scanKeys_scan_error (e : Error) (rest : List (Except Error String))
    (ks : List String) :
    ∀ (fuel : Nat) (r : Rows) (result : List String), r.closed = false →
      r.pending = ks.map Except.ok ++ Except.error e :: rest → ks.length < fuel →
      scanKeys fuel r result = .returned e := by
  induction ks with
  | nil =>
    intro fuel r result hc hp hf
    obtain ⟨cur, pending, broken, later, closed, lasterr⟩ := r
    simp only [List.map_nil, List.nil_append] at hp hc
    subst hp hc
    cases fuel with
    | zero => simp at hf
    | succ fuel => simp [scanKeys, Rows.Next, Rows.Scan]
  | cons k ks ih =>
    intro fuel r result hc hp hf
    obtain ⟨cur, pending, broken, later, closed, lasterr⟩ := r
    simp only [List.map_cons, List.cons_append] at hp hc
    subst hp hc
    cases fuel with
    | zero => simp at hf
    | succ fuel =>
      simp only [List.length_cons, Nat.add_lt_add_iff_right] at hf
      simp only [scanKeys, Rows.Next, Rows.Scan]
      simp only [Bool.false_eq_true, if_false]
      exact ih fuel _ _ rfl rfl hf

/-- The errors every operation does return as they are: an error of the statement
(`ExecContext`, `QueryRowContext` through `row.Err()`, `QueryContext`), of
`RowsAffected`, of `row.Scan` and of `rows.Scan`, with a nil value or list beside it. -/
theorem database_errors_returned (σ : Type) (m : MariaDbStore σ) (key suffix : String)
    (value : Bytes) (s s' : σ) (e : Error) :
    (m.db.ExecContext (WithTimeout m.timeout) (createTableText m.table) [] s = (.error e, s')
        → Init m s = (some e, s')) ∧
      (m.db.ExecContext (WithTimeout m.timeout) (upsertText m.table)
          [.str key, .bytes value, .bytes value] s = (.error e, s')
        → Set m key value s = (some e, s')) ∧
      (m.db.ExecContext (WithTimeout m.timeout) (deleteText m.table) [.str key] s
          = (.error e, s')
        → Delete m key s = (some e, s')) ∧
      (∀ result, m.db.ExecContext (WithTimeout m.timeout) (deleteText m.table) [.str key] s
          = (.ok result, s') → result.RowsAffected = .error e
        → Delete m key s = (some e, s')) ∧
      (∀ row, m.db.QueryRowContext (WithTimeout m.timeout) (selectValueText m.table)
          [.str key] s = (row, s') → row.Err = some e
        → Get m key s = (([], some e), s')) ∧
      (∀ row, m.db.QueryRowContext (WithTimeout m.timeout) (selectValueText m.table)
          [.str key] s = (row, s') → row.Err = none → row.Scan = .error e
        → Get m key s = (([], some e), s')) ∧
      (m.db.QueryContext (WithTimeout m.timeout) (selectKeysText m.table)
          [.str ("%" ++ suffix)] s = (.error e, s')
        → KeysWithSuffix m suffix s = (some ([], some e), s')) ∧
      (∀ (ks : List String) (rest : List (Except Error String)) (broken : Option Error)
          (later : List ResultSet),
        m.db.QueryContext (WithTimeout m.timeout) (selectKeysText m.table)
          [.str ("%" ++ suffix)] s
          = (.ok (Rows.open ⟨ks.map Except.ok ++ Except.error e :: rest, broken⟩ later), s')
        → KeysWithSuffix m suffix s = (some ([], some e), s')) := by
  refine ⟨?_, ?_, ?_, ?_, ?_, ?_, ?_, ?_⟩
  · intro h; simp only [Init, h]
  · intro h; simp only [Set, h]
  · intro h; simp only [Delete, h]
  · intro result h hr; simp only [Delete, h, hr]
  · intro row h hr; simp only [Get, h, hr]
  · intro row h hr hs; simp only [Get, h, hr, hs]
  · intro h; simp only [KeysWithSuffix, h]
  · intro ks rest broken later h
    have hsk : scanKeys
        ((Rows.open ⟨ks.map Except.ok ++ Except.error e :: rest, broken⟩ later).size + 1)
        (Rows.open ⟨ks.map Except.ok ++ Except.error e :: rest, broken⟩ later) []
          = .returned e :=
      scanKeys_scan_error e rest ks _ _ [] rfl rfl
        (by simp only [Rows.size, Rows.open, List.length_append, List.length_map,
              List.length_cons]; omega)
    simp only [KeysWithSuffix, h, drainResultSets, hsk]

/-! ## The claims -/

/-- C6: `New` keeps the table and the connection of the configuration, takes 3 seconds as
the timeout when the configured timeout is zero, and keeps every other configured
timeout, negative ones included. -/
theorem New_timeout {σ : Type} (c : Configuration σ) :
    (New c).table = c.Table ∧ (New c).db = c.Db ∧
      (c.Timeout = 0 → (New c).timeout = 3 * Second ∧ (New c).timeout = 3000000000) ∧
      (c.Timeout ≠ 0 → (New c).timeout = c.Timeout) ∧
      (c.Timeout < 0 → (New c).timeout = c.Timeout) := by
  refine ⟨rfl, rfl, ?_, ?_, ?_⟩
  · intro h
    simp [New, timeoutOrDefaultTimeout, h, defaultTimeout, Second]
  · intro h
    simp [New, timeoutOrDefaultTimeout, h]
  · intro h
    have h0 : c.Timeout ≠ 0 := ne_of_lt h
    simp [New, timeoutOrDefaultTimeout, h0]

/-- C2: when the DELETE statement and the reading of its rows-affected count succeed,
`Delete` returns an error with message "unknown key" exactly when the count is zero and
returns nil when the count is positive; on the modelled server, for a table without the
key, `Delete` returns the "unknown key" error and leaves the table as it was. -/
theorem Delete_rows_affected (σ : Type) (m : MariaDbStore σ) (key : String) (s s' : σ)
    (result : Result) (rows : Int)
    (hexec : m.db.ExecContext (WithTimeout m.timeout) (deleteText m.table) [.str key] s
      = (.ok result, s'))
    (hrows : result.RowsAffected = .ok rows)
    (name : String) (timeout : Duration) (ht : 0 ≤ timeout) (t : Table)
    (habsent : ∀ r ∈ t, r.1 ≠ key) :
    ((∃ err, (Delete m key s).1 = some err ∧ err.Error = "unknown key") ↔ rows = 0) ∧
      (0 < rows → (Delete m key s).1 = none) ∧
      Delete (New (onMariaDb name timeout)) key (some t)
        = (some (.errorsNew "unknown key"), some t) := by
  have hd : Delete m key s
      = if rows = 0 then (some (.errorsNew "unknown key"), s') else (none, s') := by
    simp only [Delete, hexec, hrows]
  refine ⟨?_, ?_, ?_⟩
  · rw [hd]
    by_cases h0 : rows = 0
    · simp [h0, Error.Error]
    · simp [h0]
  · intro hpos
    rw [hd, if_neg (ne_of_gt hpos)]
  · rw [Delete_onMariaDb name timeout ht]
    have hf : (t.filter fun r => r.1 = key) = [] := by
      rw [List.filter_eq_nil_iff]
      intro r hr
      simpa using habsent r hr
    have hg : (t.filter fun r => ¬ r.1 = key) = t := by
      rw [List.filter_eq_self]
      intro r hr
      simpa using habsent r hr
    rw [hf, hg]
    simp

/-- An instance of `Delete_rows_affected`: one row affected on a table holding the key,
and a table without the key. -/
theorem Delete_rows_affected_witness :
    ((∃ err, (Delete (New (onMariaDb "t" 0)) "k" (some [("k", [1])])).1 = some err ∧
        err.Error = "unknown key") ↔ (1 : Int) = 0) ∧
      ((0 : Int) < 1 → (Delete (New (onMariaDb "t" 0)) "k" (some [("k", [1])])).1 = none) ∧
      Delete (New (onMariaDb "t" 0)) "k" (some [("a", [2])])
        = (some (.errorsNew "unknown key"), some [("a", [2])]) :=
  Delete_rows_affected Server (New (onMariaDb "t" 0)) "k" (some [("k", [1])]) (some [])
    ⟨.ok 1⟩ 1 rfl rfl "t" 0 (by decide) [("a", [2])] (by decide)

/-- C7: on the modelled server, for a table without a row for the key, `Get` returns a nil
value with `sql.ErrNoRows` and leaves the table as it was. -/
theorem Get_absent (name : String) (timeout : Duration) (ht : 0 ≤ timeout)
    (key : String) (t : Table) (habsent : ∀ r ∈ t, r.1 ≠ key) :
    Get (New (onMariaDb name timeout)) key (some t) = (([], some .ErrNoRows), some t) ∧
      (Get (New (onMariaDb name timeout)) key (some t)).1.2 ≠ none := by
  rw [Get_onMariaDb name timeout ht, lookup_absent key t habsent]
  simp

/-- An instance of `Get_absent`. -/
theorem Get_absent_witness :
    Get (New (onMariaDb "t" 0)) "k" (some [("a", [2])])
        = (([], some .ErrNoRows), some [("a", [2])]) ∧
      (Get (New (onMariaDb "t" 0)) "k" (some [("a", [2])])).1.2 ≠ none :=
  Get_absent "t" 0 (by decide) "k" [("a", [2])] (by decide)

/-- C8: on the modelled server, `Init` returns nil, a second `Init` returns nil and leaves
the state the first one produced, and `Init` on an existing table leaves the table and its
records as they were. -/
theorem Init_idempotent (name : String) (timeout : Duration) (ht : 0 ≤ timeout)
    (s : Server) :
    (Init (New (onMariaDb name timeout)) s).1 = none ∧
      Init (New (onMariaDb name timeout)) (Init (New (onMariaDb name timeout)) s).2
        = (none, (Init (New (onMariaDb name timeout)) s).2) ∧
      (∀ t, s = some t → Init (New (onMariaDb name timeout)) s = (none, some t)) := by
  refine ⟨?_, ?_, ?_⟩
  · rw [Init_onMariaDb name timeout ht]
  · rw [Init_onMariaDb name timeout ht, Init_onMariaDb name timeout ht]
    simp
  · intro t hs
    rw [Init_onMariaDb name timeout ht, hs]
    simp

/-- An instance of `Init_idempotent`, on a server without the table. -/
theorem Init_idempotent_witness :
    (Init (New (onMariaDb "t" 0)) none).1 = none ∧
      Init (New (onMariaDb "t" 0)) (Init (New (onMariaDb "t" 0)) none).2
        = (none, (Init (New (onMariaDb "t" 0)) none).2) ∧
      (∀ t, (none : Server) = some t → Init (New (onMariaDb "t" 0)) none = (none, some t)) :=
  Init_idempotent "t" 0 (by decide) none

/-- C1, as stated, fails for a key of 256 characters: the `key` column is `varchar(255)`,
`Set` returns the server's error, and `Get` then reports no row instead of the value. -/
theorem Set_Get_long_key :
    Set (New (onMariaDb "t" 0)) longKey [1] (some []) = (some dataTooLong, some []) ∧
      Get (New (onMariaDb "t" 0)) longKey (Set (New (onMariaDb "t" 0)) longKey [1] (some [])).2
        = (([], some .ErrNoRows), some []) ∧
      (Get (New (onMariaDb "t" 0)) longKey
        (Set (New (onMariaDb "t" 0)) longKey [1] (some [])).2).1 ≠ ([1], none) := by
  decide

/-- C1, amended: on the modelled server, for every key of at most 255 characters, every
value of at most 16777215 bytes and every table content, `Set(key, value)` returns nil and
`Get(key)` then returns exactly `value` with a nil error; and after `Set(key, v1)`,
`Set(key, v2)` returns nil and `Get(key)` returns `v2`. -/
theorem Set_Get_roundtrip (name : String) (timeout : Duration) (ht : 0 ≤ timeout)
    (key : String) (v1 v2 : Bytes) (t : Table)
    (hk : key.length ≤ maxKeyLength)
    (h1 : v1.length ≤ maxValueLength) (h2 : v2.length ≤ maxValueLength) :
    (Set (New (onMariaDb name timeout)) key v2 (some t)).1 = none ∧
      (Get (New (onMariaDb name timeout)) key
        (Set (New (onMariaDb name timeout)) key v2 (some t)).2).1 = (v2, none) ∧
      (Set (New (onMariaDb name timeout)) key v2
        (Set (New (onMariaDb name timeout)) key v1 (some t)).2).1 = none ∧
      (Get (New (onMariaDb name timeout)) key
        (Set (New (onMariaDb name timeout)) key v2
          (Set (New (onMariaDb name timeout)) key v1 (some t)).2).2).1 = (v2, none) := by
  have hget : ∀ (v : Bytes) (t : Table), v.length ≤ maxValueLength →
      (Get (New (onMariaDb name timeout)) key
        (Set (New (onMariaDb name timeout)) key v (some t)).2).1 = (v, none) := by
    intro v t hv
    rw [Set_fits name timeout ht key v t hk hv, Get_onMariaDb name timeout ht,
      lookup_upserted]
  refine ⟨?_, hget v2 t h2, ?_, ?_⟩
  · rw [Set_fits name timeout ht key v2 t hk h2]
  · rw [Set_fits name timeout ht key v1 t hk h1, Set_fits name timeout ht key v2 _ hk h2]
  · rw [Set_fits name timeout ht key v1 t hk h1]
    exact hget v2 _ h2

/-- An instance of `Set_Get_roundtrip`: the key is present with another value. -/
theorem Set_Get_roundtrip_witness :
    (Set (New (onMariaDb "t" 0)) "k" [7, 8] (some [("k", [1])])).1 = none ∧
      (Get (New (onMariaDb "t" 0)) "k"
        (Set (New (onMariaDb "t" 0)) "k" [7, 8] (some [("k", [1])])).2).1 = ([7, 8], none) ∧
      (Set (New (onMariaDb "t" 0)) "k" [7, 8]
        (Set (New (onMariaDb "t" 0)) "k" [9] (some [("k", [1])])).2).1 = none ∧
      (Get (New (onMariaDb "t" 0)) "k"
        (Set (New (onMariaDb "t" 0)) "k" [7, 8]
          (Set (New (onMariaDb "t" 0)) "k" [9] (some [("k", [1])])).2).2).1 = ([7, 8], none) :=
  Set_Get_roundtrip "t" 0 (by decide) "k" [9] [7, 8] [("k", [1])] (by decide) (by decide)
    (by decide)

/-- C3, as stated, fails for a key of 256 characters: `Set` is rejected by the server, so
`Delete` finds no row and returns the "unknown key" error instead of nil. -/
theorem Set_Delete_long_key :
    Delete (New (onMariaDb "t" 0)) longKey
        (Set (New (onMariaDb "t" 0)) longKey [1] (some [])).2
      = (some (.errorsNew "unknown key"), some []) := by
  decide

/-- C3, amended: on the modelled server, for every key of at most 255 characters, every
value of at most 16777215 bytes and every table content, after `Set(k, v)` the call
`Delete(k)` returns nil and `Get(k)` then returns a nil value with `sql.ErrNoRows`. -/
theorem Set_Delete_Get (name : String) (timeout : Duration) (ht : 0 ≤ timeout)
    (key : String) (v : Bytes) (t : Table)
    (hk : key.length ≤ maxKeyLength) (hv : v.length ≤ maxValueLength) :
    (Delete (New (onMariaDb name timeout)) key
        (Set (New (onMariaDb name timeout)) key v (some t)).2).1 = none ∧
      (Get (New (onMariaDb name timeout)) key
        (Delete (New (onMariaDb name timeout)) key
          (Set (New (onMariaDb name timeout)) key v (some t)).2).2).1
        = ([], some .ErrNoRows) := by
  rw [Set_fits name timeout ht key v t hk hv, Delete_onMariaDb name timeout ht]
  have hpos := filter_key_pos key v _ (lookup_upserted key v t)
  refine ⟨?_, ?_⟩
  · simp only [hpos, if_false]
  · simp only
    rw [Get_onMariaDb name timeout ht, lookup_filter_ne]

/-- An instance of `Set_Delete_Get`. -/
theorem Set_Delete_Get_witness :
    (Delete (New (onMariaDb "t" 0)) "k"
        (Set (New (onMariaDb "t" 0)) "k" [7] (some [("a", [1])])).2).1 = none ∧
      (Get (New (onMariaDb "t" 0)) "k"
        (Delete (New (onMariaDb "t" 0)) "k"
          (Set (New (onMariaDb "t" 0)) "k" [7] (some [("a", [1])])).2).2).1
        = ([], some .ErrNoRows) :=
  Set_Delete_Get "t" 0 (by decide) "k" [7] [("a", [1])] (by decide) (by decide)

/-- C4, as stated, fails for a suffix with a backslash, the escape character of `LIKE`:
with keys `xab` and `xa\b` and the suffix `a\b` (no `%`, no `_`), the pattern `%a\b`
selects `xab`, which does not end with the suffix, and misses `xa\b`, which does. -/
theorem KeysWithSuffix_backslash :
    '%' ∉ "a\\b".data ∧ '_' ∉ "a\\b".data ∧
      KeysWithSuffix (New (onMariaDb "t" 0)) "a\\b" (some [("xab", []), ("xa\\b", [])])
        = (some (["xab"], none), some [("xab", []), ("xa\\b", [])]) ∧
      "a\\b".data <:+ "xa\\b".data ∧ ¬ "a\\b".data <:+ "xab".data := by
  decide

/-- C4, amended: on the modelled server, for every table content (keys unique) and every
suffix that contains no `%`, no `_` and no backslash, `KeysWithSuffix` returns, with a nil
error and the table unchanged, exactly the keys of the table that end with the suffix,
each once; when no key ends with the suffix the list is nil. -/
theorem KeysWithSuffix_suffix_match (name : String) (timeout : Duration) (ht : 0 ≤ timeout)
    (suffix : String) (t : Table) (hkeys : (t.map Prod.fst).Nodup)
    (h1 : '%' ∉ suffix.data) (h2 : '_' ∉ suffix.data) (h3 : '\\' ∉ suffix.data) :
    ∃ keys, KeysWithSuffix (New (onMariaDb name timeout)) suffix (some t)
        = (some (keys, none), some t) ∧
      keys.Nodup ∧
      (∀ k, k ∈ keys ↔ k ∈ t.map Prod.fst ∧ suffix.data <:+ k.data) ∧
      ((∀ k ∈ t.map Prod.fst, ¬ suffix.data <:+ k.data) → keys = []) := by
  refine ⟨_, KeysWithSuffix_onMariaDb name timeout ht suffix t, ?_, ?_, ?_⟩
  · exact hkeys.sublist (List.Sublist.map _ (List.filter_sublist _))
  · intro k
    simp only [List.mem_map, List.mem_filter, percent_data,
      like_percent_literal _ _ h1 h2 h3]
    constructor
    · rintro ⟨r, ⟨hr, hs⟩, rfl⟩
      exact ⟨⟨r, hr, rfl⟩, hs⟩
    · rintro ⟨⟨r, hr, rfl⟩, hs⟩
      exact ⟨r, ⟨hr, hs⟩, rfl⟩
  · intro hnone
    rw [List.map_eq_nil_iff, List.filter_eq_nil_iff]
    intro r hr
    rw [percent_data, like_percent_literal _ _ h1 h2 h3]
    exact hnone r.1 (List.mem_map_of_mem _ hr)

/-- An instance of `KeysWithSuffix_suffix_match`: keys `a-foo`, `b-foo`, `c-bar` and
suffix `foo` give `a-foo` and `b-foo`. -/
theorem KeysWithSuffix_suffix_match_witness :
    (∃ keys, KeysWithSuffix (New (onMariaDb "t" 0)) "foo"
          (some [("a-foo", [1]), ("b-foo", [2]), ("c-bar", [3])])
        = (some (keys, none), some [("a-foo", [1]), ("b-foo", [2]), ("c-bar", [3])]) ∧
      keys.Nodup ∧
      (∀ k, k ∈ keys ↔
        k ∈ [("a-foo", [1]), ("b-foo", [2]), ("c-bar", ([3] : Bytes))].map Prod.fst ∧
          "foo".data <:+ k.data) ∧
      ((∀ k ∈ [("a-foo", [1]), ("b-foo", [2]), ("c-bar", ([3] : Bytes))].map Prod.fst,
          ¬ "foo".data <:+ k.data) → keys = [])) ∧
      (KeysWithSuffix (New (onMariaDb "t" 0)) "foo"
          (some [("a-foo", [1]), ("b-foo", [2]), ("c-bar", [3])])).1
        = some (["a-foo", "b-foo"], none) :=
  ⟨KeysWithSuffix_suffix_match "t" 0 (by decide) "foo"
    [("a-foo", [1]), ("b-foo", [2]), ("c-bar", [3])] (by decide) (by decide) (by decide)
    (by decide), by decide⟩

/-- C9: `KeysWithSuffix` hands `"%" + suffix` to `LIKE` as it is, so on the modelled server
its result is the keys that match that pattern, and `_` and `%` in the suffix act as
wildcards: the key `a-foo` is returned for the suffix `_foo` and for the suffix `a%o`,
and ends with neither. -/
theorem KeysWithSuffix_wildcards :
    (∀ (name suffix : String) (t : Table),
      KeysWithSuffix (New (onMariaDb name 0)) suffix (some t)
        = (some ((t.filter fun r => like ('%' :: suffix.data) r.1.data).map Prod.fst, none),
            some t)) ∧
      '_' ∈ "_foo".data ∧
      KeysWithSuffix (New (onMariaDb "t" 0)) "_foo" (some [("a-foo", [1])])
        = (some (["a-foo"], none), some [("a-foo", [1])]) ∧
      ¬ "_foo".data <:+ "a-foo".data ∧
      '%' ∈ "a%o".data ∧
      KeysWithSuffix (New (onMariaDb "t" 0)) "a%o" (some [("a-foo", [1])])
        = (some (["a-foo"], none), some [("a-foo", [1])]) ∧
      ¬ "a%o".data <:+ "a-foo".data := by
  refine ⟨?_, by decide, by decide, by decide, by decide, by decide, by decide⟩
  intro name suffix t
  rw [KeysWithSuffix_onMariaDb name 0 (by decide), percent_data]

/-- C10: when the query answers with one or more result sets whose rows all scan,
`KeysWithSuffix` returns the keys of all result sets, in the order of the sets and of the
rows in each set, with a nil error; its loop ends with the cursor closed and no row or
result set left over. -/
theorem KeysWithSuffix_drains (σ : Type) (m : MariaDbStore σ) (suffix : String) (s s' : σ)
    (first : List String) (later : List (List String))
    (hq : m.db.QueryContext (WithTimeout m.timeout) (selectKeysText m.table)
        [.str ("%" ++ suffix)] s
      = (.ok (Rows.open (keyRows first) (later.map keyRows)), s')) :
    KeysWithSuffix m suffix s = (some (first ++ later.flatten, none), s') ∧
      drainResultSets ((Rows.open (keyRows first) (later.map keyRows)).size + 1)
          (Rows.open (keyRows first) (later.map keyRows)) []
        = .done (⟨none, [], none, [], true, none⟩, first ++ later.flatten) := by
  have hsize : later.length < (Rows.open (keyRows first) (later.map keyRows)).size + 1 := by
    have := later_length_le (later.map keyRows)
    rw [List.length_map] at this
    simp only [Rows.size, Rows.open]
    omega
  have hd := drainResultSets_ok later _ first (Rows.open (keyRows first) (later.map keyRows))
    [] rfl rfl rfl rfl hsize
  simp only [List.nil_append] at hd
  refine ⟨?_, hd⟩
  simp only [KeysWithSuffix, hq, hd]

/-- An instance of `KeysWithSuffix_drains`: three result sets, the second one empty. -/
theorem KeysWithSuffix_drains_witness :
    KeysWithSuffix
        ⟨"t", respondingWith (keyRows ["a", "b"]) ([[], ["c"]].map keyRows), defaultTimeout⟩
        "" ()
      = (some (["a", "b"] ++ [[], ["c"]].flatten, none), ()) ∧
      drainResultSets
          ((Rows.open (keyRows ["a", "b"]) ([[], ["c"]].map keyRows)).size + 1)
          (Rows.open (keyRows ["a", "b"]) ([[], ["c"]].map keyRows)) []
        = .done (⟨none, [], none, [], true, none⟩, ["a", "b"] ++ [[], ["c"]].flatten) :=
  KeysWithSuffix_drains Unit
    ⟨"t", respondingWith (keyRows ["a", "b"]) ([[], ["c"]].map keyRows), defaultTimeout⟩
    "" () () ["a", "b"] [[], ["c"]] rfl

/-- C5 at a failing input: the response delivers the row `a-foo` and then breaks with
`context.DeadlineExceeded`; `KeysWithSuffix` returns the keys read so far with a nil error,
although the cursor holds the error for `rows.Err()`, which the code does not call. -/
theorem KeysWithSuffix_drops_iteration_error :
    KeysWithSuffix
        ⟨"t", respondingWith ⟨[.ok "a-foo"], some .DeadlineExceeded⟩ [], defaultTimeout⟩
        "foo" ()
      = (some (["a-foo"], none), ()) ∧
      ∃ rows, drainResultSets 2 (Rows.open ⟨[.ok "a-foo"], some .DeadlineExceeded⟩ []) []
          = .done (rows, ["a-foo"]) ∧
        rows.Err = some .DeadlineExceeded :=
  ⟨by decide, _, rfl, rfl⟩

end storelib
